import Mathlib

set_option autoImplicit false

/-
Verification of the parameter/variable resolution and projection-wiring engine of the
repository (src/Functions/Utility.py, src/Functions/Projections/Projection.py,
src/Functions/Projections/Mapping.py), against its natural-language specification.

Conventions of the shallow embedding:
- numeric values are rationals; numpy 1-D arrays are List Rat, 2-D arrays List (List Rat);
- Python exceptions are Except results, with a PyError naming the exception class;
- NotImplemented-or-absent parameters are Options.
-/

namespace PsyNeuLink

/-- Exception classes raised by the embedded code: UtilityError and ProjectionError are the
    repository's own classes; attributeError models a Python AttributeError raised when an
    attribute that does not exist is accessed. -/
inductive PyError where
  | utilityError (msg : String)
  | projectionError (msg : String)
  | attributeError (msg : String)
  | valueError (msg : String)
  deriving DecidableEq, Repr

/-- Output-shape coercion modes of Utility functions
    (class UtilityFunctionOutputType, src/Functions/Utility.py). As a Python IntEnum
    its members carry the integer values 0, 1, 2. -/
inductive UtilityFunctionOutputType where
  | RAW_NUMBER
  | NP_1D_ARRAY
  | NP_2D_ARRAY
  deriving DecidableEq, Repr

/-- Python truthiness of an optional UtilityFunctionOutputType value: None is falsy, and
    RAW_NUMBER is the IntEnum member with integer value 0, hence also falsy. -/
def outputTypeTruthy : Option UtilityFunctionOutputType → Bool
  | none => false
  | some .RAW_NUMBER => false
  | some _ => true

/-- State of a Utility function relevant to its functionOutputType property
    (Utility_Base in src/Functions/Utility.py): conversionEnabled models the
    paramsCurrent entry kwFunctionOutputTypeConversion, variableLen models the length of
    self.variable, and outputTypeRaw models the private attribute that stores the declared
    coercion mode. -/
structure UtilityOutputState where
  conversionEnabled : Bool
  variableLen : Nat
  outputTypeRaw : Option UtilityFunctionOutputType
  deriving DecidableEq, Repr

/-- Getter of the functionOutputType property: returns the stored mode only when output
    conversion is enabled, otherwise None. -/
def functionOutputTypeGet (st : UtilityOutputState) : Option UtilityFunctionOutputType :=
  if st.conversionEnabled then st.outputTypeRaw else none

/-- Setter of the functionOutputType property, translated as written in the source:
    the first guard tests the Python truthiness of the assigned value (so it is skipped for
    RAW_NUMBER, whose integer value is 0); the isinstance guard cannot fire in a typed
    embedding; and the final guard compares the CURRENT property value (self.functionOutputType)
    with RAW_NUMBER rather than the value being assigned. -/
def functionOutputTypeSet (st : UtilityOutputState) (value : Option UtilityFunctionOutputType) :
    Except PyError UtilityOutputState :=
  if outputTypeTruthy value ∧ ¬ st.conversionEnabled then
    .error (.utilityError "output conversion is not enabled")
  else if st.variableLen > 1 ∧ functionOutputTypeGet st = some .RAW_NUMBER then
    .error (.utilityError "cannot be set to return a single number")
  else
    .ok { st with outputTypeRaw := value }

/-- Accumulation policies of the Integrator function (class Integrator.Weightings in
    src/Functions/Utility.py). -/
inductive Weightings where
  | LINEAR
  | SCALED
  | TIME_AVERAGED
  deriving DecidableEq, Repr

/-- Integrator.execute (src/Functions/Utility.py). The variable holds the old and new
    values in its first two positions; the weighting parameter is modelled as an Option,
    none standing for any parameter value that is not one of the three enum members (the
    source compares the parameter against each member in turn and falls through to a final
    else branch that returns the new value). Indexing a too-short variable is a Python
    IndexError, modelled as the result none. (The source parameter named variable is
    rendered var, since variable is a Lean keyword.) -/
def integratorExecute (var : List ℚ) (rate : ℚ) (weighting : Option Weightings) :
    Option ℚ :=
  match var with
  | old_value :: new_value :: _ =>
    match weighting with
    | some .LINEAR => some (old_value + rate)
    | some .SCALED => some (old_value + new_value * rate)
    | some .TIME_AVERAGED => some ((1 - rate) * old_value + rate * new_value)
    | none => some new_value
  | _ => none

/-- C4: for every two-element variable and every rate, Integrator.execute returns
    old + rate under LINEAR (the new value is ignored), old + rate * new under SCALED, and
    (1 - rate) * old + rate * new under TIME_AVERAGED; with old = 10, new = 4, rate = 0.5
    the three policies return 10.5, 12 and 7 respectively. -/
theorem integrator_policies (old_value new_value rate : ℚ) :
    integratorExecute [old_value, new_value] rate (some .LINEAR) = some (old_value + rate) ∧
    integratorExecute [old_value, new_value] rate (some .SCALED)
      = some (old_value + rate * new_value) ∧
    integratorExecute [old_value, new_value] rate (some .TIME_AVERAGED)
      = some ((1 - rate) * old_value + rate * new_value) ∧
    integratorExecute [10, 4] (1/2) (some .LINEAR) = some (21/2) ∧
    integratorExecute [10, 4] (1/2) (some .SCALED) = some 12 ∧
    integratorExecute [10, 4] (1/2) (some .TIME_AVERAGED) = some 7 := by
  refine ⟨rfl, ?_, rfl, ?_, ?_, ?_⟩
  · simp [integratorExecute, mul_comm]
  · norm_num [integratorExecute]
  · norm_num [integratorExecute]
  · norm_num [integratorExecute]

/-- C9: calling Integrator.execute with a weighting that is none of the three defined
    policies raises no error; it returns the new value (the second element of the variable)
    unchanged, discarding the old value and the rate entirely. -/
theorem integrator_unrecognized_weighting (old_value new_value rate : ℚ) :
    integratorExecute [old_value, new_value] rate none = some new_value := rfl

/-- Combination operations of the Arithmetic function (class Arithmetic.Operation in
    src/Functions/Utility.py). -/
inductive Operation where
  | SUM
  | PRODUCT
  deriving DecidableEq, Repr

/-- Numpy value of dimension at most 2: a bare number, a 1-D array, or a 2-D array. -/
inductive NpVar where
  | d0 : ℚ → NpVar
  | d1 : List ℚ → NpVar
  | d2 : List (List ℚ) → NpVar
  deriving DecidableEq, Repr

/-- Modelled from the spec: the helper np_array_less_than_2d lives in Main.py, which is not
    under src/; per its name and its use in Arithmetic.execute it tests whether the variable
    is below 2-D (a bare number or a 1-D array). -/
def np_array_less_than_2d : NpVar → Bool
  | .d2 _ => false
  | _ => true

/-- Broadcast evaluation of (variable * scale) + offset, the numpy expression applied to a
    variable of any dimension. -/
def scaleOffsetBroadcast : NpVar → ℚ → ℚ → NpVar
  | .d0 x, scale, offset => .d0 (x * scale + offset)
  | .d1 v, scale, offset => .d1 (v.map (fun x => x * scale + offset))
  | .d2 m, scale, offset => .d2 (m.map (fun r => r.map (fun x => x * scale + offset)))

/-- Elementwise sum of the rows of a 2-D array, as computed by the Python builtin sum: the
    fold starts from the scalar 0, which numpy broadcasts against the first row, so on a
    nonempty list of equal-length rows the result is the elementwise sum of the rows. (On an
    empty list Python would return the bare scalar 0; the theorems below use nonempty rows.) -/
def npSumRows : List (List ℚ) → List ℚ
  | [] => []
  | r :: rs => rs.foldl (List.zipWith (· + ·)) r

/-- Elementwise product of the rows of a 2-D array, as computed by reduce(mul, rows, 1):
    the fold starts from the scalar 1, which numpy broadcasts against the first row. -/
def npProdRows : List (List ℚ) → List ℚ
  | [] => []
  | r :: rs => rs.foldl (List.zipWith (· * ·)) r

/-- Number of columns of a 2-D list, as numpy reports the second component of the shape of
    a rectangular nonempty array. -/
def colsOf (m : List (List ℚ)) : ℕ := (m.headD []).length

/-- Numpy broadcast product of a 2-D array of shape (r, c) (rectangular, as every
    np.ndarray is; c read off the first row) with a 1-D weights array of length w, aligning
    the trailing axes: when c = w each row is multiplied elementwise by the weights (the
    weights scale columns, not rows); when w = 1 every entry is multiplied by the single
    weight; when c = 1 each length-1 row is broadcast against the weights, giving a full
    row of products; any other combination raises a ValueError. -/
def npBroadcastMulRows (rows : List (List ℚ)) (ws : List ℚ) :
    Except PyError (List (List ℚ)) :=
  if colsOf rows = ws.length then
    .ok (rows.map (fun row => List.zipWith (· * ·) row ws))
  else if ws.length = 1 then
    .ok (rows.map (fun row => row.map (fun x => x * ws.headD 0)))
  else if colsOf rows = 1 then
    .ok (rows.map (fun row => ws.map (fun t => row.headD 0 * t)))
  else
    .error (.valueError "operands could not be broadcast together")

/-- Arithmetic.execute (src/Functions/Utility.py). A variable below 2-D is returned as
    variable * scale + offset at once. On a 2-D variable, weights (none models
    NotImplemented; the truthiness test in the source also skips an empty list) must match
    the number of rows, else a UtilityError; the surviving flat list is then multiplied
    against the 2-D variable by numpy broadcasting along the trailing axis
    (self.variable = self.variable * weights); finally SUM yields sum(rows) * scale +
    offset while PRODUCT yields the elementwise product of the rows with no scale or
    offset. -/
def arithmeticExecute (var : NpVar) (weights : Option (List ℚ)) (operation : Operation)
    (scale offset : ℚ) : Except PyError NpVar :=
  if np_array_less_than_2d var then
    .ok (scaleOffsetBroadcast var scale offset)
  else
    match var with
    | .d2 rows =>
      let combine : List (List ℚ) → Except PyError NpVar := fun rows2 =>
        match operation with
        | .SUM => .ok (.d1 ((npSumRows rows2).map (fun x => x * scale + offset)))
        | .PRODUCT => .ok (.d1 (npProdRows rows2))
      match weights with
      | none => combine rows
      | some ws =>
        if ws.isEmpty then combine rows
        else if ws.length ≠ rows.length then
          .error (.utilityError "number of items in variable does not equal number of weights")
        else
          match npBroadcastMulRows rows ws with
          | .ok weighted => combine weighted
          | .error e => .error e
    | v => .ok (scaleOffsetBroadcast v scale offset)

/-- Arithmetic.validate_params (src/Functions/Utility.py), restricted to the weights and
    operation entries it checks. A weights value that is a nonempty list of numbers (or a
    nonempty array) reaches the line np.atleast(...).reshape(2,1); numpy has no attribute
    named atleast, so that line raises AttributeError unconditionally. An absent operation
    raises a UtilityError; in this embedding the operation, when present, is one of the two
    enum members, so the member check always passes. -/
def arithmeticValidateParams (weights : Option (List ℚ)) (operation : Option Operation) :
    Except PyError Unit := do
  match weights with
  | none => pure ()
  | some ws =>
    if ws.isEmpty then
      pure ()
    else
      throw (.attributeError "module numpy has no attribute atleast")
  match operation with
  | none => throw (.utilityError "Operation param missing")
  | some _ => pure ()

/-- Auxiliary: getD agrees with getElem below the length. -/
lemma getD_eq_getElem_of_lt {α : Type} (l : List α) (i : ℕ) (d : α) (h : i < l.length) :
    l.getD i d = l[i] := by
  simp [List.getD_eq_getElem?_getD, List.getElem?_eq_getElem, h]

/-- Auxiliary: a list of length n is the table of its entries over range n. -/
lemma list_eq_range_map_getD (l : List ℚ) (n : ℕ) (h : l.length = n) :
    (List.range n).map (fun j => l.getD j 0) = l := by
  apply List.ext_getElem (by simp [h])
  intro i h1 h2
  simp only [List.getElem_map, List.getElem_range]
  exact getD_eq_getElem_of_lt l i 0 h2

/-- Auxiliary: an elementwise-addition fold over equal-length rows computes, at each index,
    the accumulator entry plus the sum of the row entries at that index. -/
lemma foldl_zipWith_add_eq (rs : List (List ℚ)) :
    ∀ (acc : List ℚ) (n : ℕ), acc.length = n → (∀ r ∈ rs, r.length = n) →
      rs.foldl (List.zipWith (· + ·)) acc
        = (List.range n).map
            (fun j => acc.getD j 0 + ∑ i ∈ Finset.range rs.length, (rs.getD i []).getD j 0) := by
  induction rs with
  | nil =>
    intro acc n hacc _
    simpa using (list_eq_range_map_getD acc n hacc).symm
  | cons r rs ih =>
    intro acc n hacc hr
    have hrlen : r.length = n := hr r (by simp)
    have hacc' : (List.zipWith (· + ·) acc r).length = n := by
      simp [hacc, hrlen]
    rw [List.foldl_cons, ih (List.zipWith (· + ·) acc r) n hacc'
      (fun x hx => hr x (by simp [hx]))]
    apply List.map_congr_left
    intro j hj
    have hjn : j < n := List.mem_range.mp hj
    have h1 : (List.zipWith (· + ·) acc r).getD j 0 = acc.getD j 0 + r.getD j 0 := by
      rw [getD_eq_getElem_of_lt _ _ _ (by rw [hacc']; exact hjn), List.getElem_zipWith,
        getD_eq_getElem_of_lt _ _ _ (by rw [hacc]; exact hjn),
        getD_eq_getElem_of_lt _ _ _ (by rw [hrlen]; exact hjn)]
    rw [h1, List.length_cons, Finset.sum_range_succ']
    simp only [List.getD_cons_succ, List.getD_cons_zero]
    ring

/-- Auxiliary: an elementwise-multiplication fold over equal-length rows computes, at each
    index, the accumulator entry times the product of the row entries at that index. -/
lemma foldl_zipWith_mul_eq (rs : List (List ℚ)) :
    ∀ (acc : List ℚ) (n : ℕ), acc.length = n → (∀ r ∈ rs, r.length = n) →
      rs.foldl (List.zipWith (· * ·)) acc
        = (List.range n).map
            (fun j => acc.getD j 0 * ∏ i ∈ Finset.range rs.length, (rs.getD i []).getD j 0) := by
  induction rs with
  | nil =>
    intro acc n hacc _
    simpa using (list_eq_range_map_getD acc n hacc).symm
  | cons r rs ih =>
    intro acc n hacc hr
    have hrlen : r.length = n := hr r (by simp)
    have hacc' : (List.zipWith (· * ·) acc r).length = n := by
      simp [hacc, hrlen]
    rw [List.foldl_cons, ih (List.zipWith (· * ·) acc r) n hacc'
      (fun x hx => hr x (by simp [hx]))]
    apply List.map_congr_left
    intro j hj
    have hjn : j < n := List.mem_range.mp hj
    have h1 : (List.zipWith (· * ·) acc r).getD j 0 = acc.getD j 0 * r.getD j 0 := by
      rw [getD_eq_getElem_of_lt _ _ _ (by rw [hacc']; exact hjn), List.getElem_zipWith,
        getD_eq_getElem_of_lt _ _ _ (by rw [hacc]; exact hjn),
        getD_eq_getElem_of_lt _ _ _ (by rw [hrlen]; exact hjn)]
    rw [h1, List.length_cons, Finset.prod_range_succ']
    simp only [List.getD_cons_succ, List.getD_cons_zero]
    ring

/-- Characterisation of npSumRows on a nonempty rectangular array: the table of the indexed
    column sums. -/
lemma npSumRows_eq (rows : List (List ℚ)) (n : ℕ) (hne : rows ≠ [])
    (hrect : ∀ r ∈ rows, r.length = n) :
    npSumRows rows
      = (List.range n).map
          (fun j => ∑ i ∈ Finset.range rows.length, (rows.getD i []).getD j 0) := by
  match rows, hne with
  | r :: rs, _ =>
    rw [npSumRows, foldl_zipWith_add_eq rs r n (hrect r (by simp))
      (fun x hx => hrect x (by simp [hx]))]
    apply List.map_congr_left
    intro j hj
    rw [List.length_cons, Finset.sum_range_succ']
    simp only [List.getD_cons_succ, List.getD_cons_zero]
    ring

/-- Characterisation of npProdRows on a nonempty rectangular array: the table of the
    indexed column products. -/
lemma npProdRows_eq (rows : List (List ℚ)) (n : ℕ) (hne : rows ≠ [])
    (hrect : ∀ r ∈ rows, r.length = n) :
    npProdRows rows
      = (List.range n).map
          (fun j => ∏ i ∈ Finset.range rows.length, (rows.getD i []).getD j 0) := by
  match rows, hne with
  | r :: rs, _ =>
    rw [npProdRows, foldl_zipWith_mul_eq rs r n (hrect r (by simp))
      (fun x hx => hrect x (by simp [hx]))]
    apply List.map_congr_left
    intro j hj
    rw [List.length_cons, Finset.prod_range_succ']
    simp only [List.getD_cons_succ, List.getD_cons_zero]
    ring

/-- Auxiliary: a nonempty rectangular array has the common row length as column count. -/
lemma colsOf_of_rect (rows : List (List ℚ)) (n : ℕ) (hne : rows ≠ [])
    (hrect : ∀ r ∈ rows, r.length = n) : colsOf rows = n := by
  cases rows with
  | nil => exact absurd rfl hne
  | cons r rs => exact hrect r (by simp)

/-- Auxiliary: multiplying every row elementwise by an n-element weights list preserves
    rectangularity of an n-column array. -/
lemma zipWith_mul_rows_rect (ws : List ℚ) (rows : List (List ℚ)) (n : ℕ)
    (hrect : ∀ r ∈ rows, r.length = n) (hwn : ws.length = n) :
    ∀ r ∈ rows.map (fun row => List.zipWith (· * ·) row ws), r.length = n := by
  intro r hr
  rcases List.mem_map.mp hr with ⟨row, hrow, rfl⟩
  simp [hrect row hrow, hwn]

/-- Auxiliary: the entry at row i and column j of the trailing-axis broadcast product of an
    n-column rectangular array with a length-n weights list is the original entry times the
    j-th weight. -/
lemma zipWith_mul_rows_getD (ws : List ℚ) (rows : List (List ℚ)) (n : ℕ)
    (hrect : ∀ r ∈ rows, r.length = n) (hwn : ws.length = n)
    (i j : ℕ) (hi : i < rows.length) (hj : j < n) :
    ((rows.map (fun row => List.zipWith (· * ·) row ws)).getD i []).getD j 0
      = (rows.getD i []).getD j 0 * ws.getD j 0 := by
  have hrow : (rows[i]).length = n := hrect _ (List.getElem_mem hi)
  have hi' : i < (rows.map (fun row => List.zipWith (· * ·) row ws)).length := by
    simpa using hi
  rw [getD_eq_getElem_of_lt _ _ _ hi']
  simp only [List.getElem_map]
  rw [getD_eq_getElem_of_lt _ _ _ (by simp [hrow, hwn, hj]), List.getElem_zipWith,
    getD_eq_getElem_of_lt _ _ _ hi,
    getD_eq_getElem_of_lt _ _ _ (by rw [hrow]; exact hj),
    getD_eq_getElem_of_lt _ _ _ (by rw [hwn]; exact hj)]

/-- C10: on a variable below 2-D, Arithmetic.execute returns variable * scale + offset
    unconditionally: weights and operation are ignored, SUM and PRODUCT give identical
    results, and scale and offset are applied even under PRODUCT. -/
theorem arithmetic_below_2d_ignores_weights_and_operation (x : ℚ) (v : List ℚ)
    (weights : Option (List ℚ)) (operation : Operation) (scale offset : ℚ) :
    arithmeticExecute (.d0 x) weights operation scale offset
      = .ok (.d0 (x * scale + offset)) ∧
    arithmeticExecute (.d1 v) weights operation scale offset
      = .ok (.d1 (v.map (fun y => y * scale + offset))) ∧
    arithmeticExecute (.d1 v) weights .SUM scale offset
      = arithmeticExecute (.d1 v) weights .PRODUCT scale offset := by
  exact ⟨rfl, rfl, rfl⟩

/-- C5: on a 2-D variable of rectangular numeric terms, Arithmetic.execute under
    Operation.SUM returns sum(terms) * scale + offset, whereas under Operation.PRODUCT it
    returns the elementwise product of the terms with scale and offset NOT applied; the
    asymmetry persists when matching weights are supplied, the terms then being the
    variable as numpy's trailing-axis broadcast multiplies it by the weights (in the square
    case every entry is scaled by the weight of its column). -/
theorem arithmetic_sum_product_asymmetry (rows : List (List ℚ)) (ws : List ℚ) (n : ℕ)
    (scale offset : ℚ) (hne : rows ≠ []) (hrect : ∀ r ∈ rows, r.length = n)
    (hws : ws.length = rows.length) (hwne : ws ≠ []) :
    arithmeticExecute (.d2 rows) none .SUM scale offset
      = .ok (.d1 ((List.range n).map (fun j =>
          (∑ i ∈ Finset.range rows.length, (rows.getD i []).getD j 0) * scale + offset))) ∧
    arithmeticExecute (.d2 rows) none .PRODUCT scale offset
      = .ok (.d1 ((List.range n).map (fun j =>
          ∏ i ∈ Finset.range rows.length, (rows.getD i []).getD j 0))) ∧
    (∀ weighted, npBroadcastMulRows rows ws = .ok weighted →
      arithmeticExecute (.d2 rows) (some ws) .SUM scale offset
        = .ok (.d1 ((npSumRows weighted).map (fun x => x * scale + offset))) ∧
      arithmeticExecute (.d2 rows) (some ws) .PRODUCT scale offset
        = .ok (.d1 (npProdRows weighted))) ∧
    (rows.length = n →
      arithmeticExecute (.d2 rows) (some ws) .SUM scale offset
        = .ok (.d1 ((List.range n).map (fun j =>
            (∑ i ∈ Finset.range rows.length,
              (rows.getD i []).getD j 0 * ws.getD j 0) * scale + offset))) ∧
      arithmeticExecute (.d2 rows) (some ws) .PRODUCT scale offset
        = .ok (.d1 ((List.range n).map (fun j =>
            ∏ i ∈ Finset.range rows.length,
              (rows.getD i []).getD j 0 * ws.getD j 0)))) := by
  have hwe : ws.isEmpty = false := by
    cases ws with
    | nil => exact absurd rfl hwne
    | cons a l => rfl
  have hgen : ∀ weighted, npBroadcastMulRows rows ws = .ok weighted →
      arithmeticExecute (.d2 rows) (some ws) .SUM scale offset
        = .ok (.d1 ((npSumRows weighted).map (fun x => x * scale + offset))) ∧
      arithmeticExecute (.d2 rows) (some ws) .PRODUCT scale offset
        = .ok (.d1 (npProdRows weighted)) := by
    intro weighted hbc
    constructor <;>
      simp only [arithmeticExecute, np_array_less_than_2d, Bool.false_eq_true, if_false,
        hwe, hws, ne_eq, not_true_eq_false, hbc]
  refine ⟨?_, ?_, hgen, ?_⟩
  · simp only [arithmeticExecute, np_array_less_than_2d, Bool.false_eq_true, if_false,
      npSumRows_eq rows n hne hrect, List.map_map]
    rfl
  · simp only [arithmeticExecute, np_array_less_than_2d, Bool.false_eq_true, if_false,
      npProdRows_eq rows n hne hrect]
  · intro hsq
    have hcols : colsOf rows = n := colsOf_of_rect rows n hne hrect
    have hwn : ws.length = n := by rw [hws, hsq]
    have hbc : npBroadcastMulRows rows ws
        = .ok (rows.map (fun row => List.zipWith (· * ·) row ws)) := by
      simp [npBroadcastMulRows, hcols, hwn]
    have hWne : rows.map (fun row => List.zipWith (· * ·) row ws) ≠ [] := by
      intro h
      exact hne (List.map_eq_nil_iff.mp h)
    have hWrect := zipWith_mul_rows_rect ws rows n hrect hwn
    have hWlen : (rows.map (fun row => List.zipWith (· * ·) row ws)).length = rows.length :=
      List.length_map _ _
    rcases hgen _ hbc with ⟨hS, hP⟩
    constructor
    · rw [hS, npSumRows_eq _ n hWne hWrect, hWlen, List.map_map]
      refine congrArg _ (congrArg _ (List.map_congr_left fun j hj => ?_))
      simp only [Function.comp]
      rw [Finset.sum_congr rfl fun i hi =>
        zipWith_mul_rows_getD ws rows n hrect hwn i j (Finset.mem_range.mp hi)
          (List.mem_range.mp hj)]
    · rw [hP, npProdRows_eq _ n hWne hWrect, hWlen]
      refine congrArg _ (congrArg _ (List.map_congr_left fun j hj => ?_))
      exact Finset.prod_congr rfl fun i hi =>
        zipWith_mul_rows_getD ws rows n hrect hwn i j (Finset.mem_range.mp hi)
          (List.mem_range.mp hj)

/-- Witness for C5: unweighted terms [[2],[3],[4]] give the bare PRODUCT [24] with neither
    scale nor offset applied; square terms [[2,3,4],[5,6,7],[8,9,10]] with weights [1,0,1]
    give the columnwise-weighted SUM [15,0,21] (scale 1, offset 0) and the bare weighted
    PRODUCT [80,0,280]; and the (3,1) by (3,) broadcast of terms [[2],[3],[4]] with weights
    [1,0,1] makes SUM return [9,0,9]. -/
theorem arithmetic_sum_product_asymmetry_witness :
    arithmeticExecute (.d2 [[2], [3], [4]]) none .PRODUCT 5 7 = .ok (.d1 [24]) ∧
    arithmeticExecute (.d2 [[2, 3, 4], [5, 6, 7], [8, 9, 10]]) (some [1, 0, 1]) .SUM 1 0
      = .ok (.d1 [15, 0, 21]) ∧
    arithmeticExecute (.d2 [[2, 3, 4], [5, 6, 7], [8, 9, 10]]) (some [1, 0, 1]) .PRODUCT 5 7
      = .ok (.d1 [80, 0, 280]) ∧
    arithmeticExecute (.d2 [[2], [3], [4]]) (some [1, 0, 1]) .SUM 1 0
      = .ok (.d1 [9, 0, 9]) := by
  refine ⟨?_, ?_, ?_, ?_⟩
  · rw [(arithmetic_sum_product_asymmetry [[2], [3], [4]] [1, 0, 1] 1 5 7 (by decide)
      (by decide) (by decide) (by decide)).2.1]
    refine congrArg (fun l => (Except.ok (NpVar.d1 l) : Except PyError NpVar)) ?_
    norm_num [List.range_succ, Finset.prod_range_succ]
  · rw [((arithmetic_sum_product_asymmetry [[2, 3, 4], [5, 6, 7], [8, 9, 10]] [1, 0, 1] 3
      1 0 (by decide) (by decide) (by decide) (by decide)).2.2.2 (by decide)).1]
    refine congrArg (fun l => (Except.ok (NpVar.d1 l) : Except PyError NpVar)) ?_
    norm_num [List.range_succ, Finset.sum_range_succ]
  · rw [((arithmetic_sum_product_asymmetry [[2, 3, 4], [5, 6, 7], [8, 9, 10]] [1, 0, 1] 3
      5 7 (by decide) (by decide) (by decide) (by decide)).2.2.2 (by decide)).2]
    refine congrArg (fun l => (Except.ok (NpVar.d1 l) : Except PyError NpVar)) ?_
    norm_num [List.range_succ, Finset.prod_range_succ]
  · rw [((arithmetic_sum_product_asymmetry [[2], [3], [4]] [1, 0, 1] 1 1 0 (by decide)
      (by decide) (by decide) (by decide)).2.2.1 [[2, 0, 2], [3, 0, 3], [4, 0, 4]]
      (by norm_num [npBroadcastMulRows, colsOf])).1]
    refine congrArg (fun l => (Except.ok (NpVar.d1 l) : Except PyError NpVar)) ?_
    norm_num [npSumRows]

/-- C6 (code bug): any nonempty weights specification reaching Arithmetic.validate_params
    raises AttributeError from the nonexistent function np.atleast, before any length
    comparison, for mismatched and matched weights alike: the claimed configuration error
    for mismatched weights, and the weighted sum 6 for weights matching three terms, are
    both unreachable through the validated path. -/
theorem arithmetic_weights_validation_always_crashes :
    arithmeticValidateParams (some [1, 0, 1]) (some .SUM)
      = .error (.attributeError "module numpy has no attribute atleast") ∧
    arithmeticValidateParams (some [1, 0]) (some .SUM)
      = .error (.attributeError "module numpy has no attribute atleast") := by
  exact ⟨rfl, rfl⟩

/-- Specification forms of the kwMatrix parameter of LinearMatrix
    (src/Functions/Utility.py): a single filler number, the identity keyword, or an
    explicit matrix. -/
inductive MatrixSpec where
  | filler : ℚ → MatrixSpec
  | identityKeyword : MatrixSpec
  | explicitMatrix : List (List ℚ) → MatrixSpec
  deriving DecidableEq, Repr

/-- Identity matrix as a 2-D list, as produced by np.identity. -/
def identityMatrix (n : ℕ) : List (List ℚ) :=
  (List.range n).map (fun i => (List.range n).map (fun j => if i = j then 1 else 0))

/-- LinearMatrix.implement_matrix (src/Functions/Utility.py): an explicit, already
    validated matrix is returned as is; a filler number is broadcast to a matrix of
    senderLen rows and receiverLen columns; the identity keyword requires the sender and
    receiver lengths to be equal, else a UtilityError, and yields the identity matrix. -/
def implementMatrix (senderLen receiverLen : ℕ) :
    MatrixSpec → Except PyError (List (List ℚ))
  | .explicitMatrix m => .ok m
  | .filler c =>
    .ok ((List.range senderLen).map (fun _ => (List.range receiverLen).map (fun _ => c)))
  | .identityKeyword =>
    if senderLen ≠ receiverLen then
      .error (.utilityError "sender length must equal receiver length to use identity matrix")
    else .ok (identityMatrix senderLen)

/-- LinearMatrix.execute (src/Functions/Utility.py): np.dot of the 1-D variable with the
    stored matrix; entry j of the result is the sum over i of variable entry i times matrix
    entry (i, j). -/
def linearMatrixExecute (var : List ℚ) (matrix : List (List ℚ)) : List ℚ :=
  (List.range (colsOf matrix)).map
    (fun j => ∑ i ∈ Finset.range var.length, var.getD i 0 * (matrix.getD i []).getD j 0)

/-- Default kwMatrix specification of the Mapping projection class
    (Mapping.paramClassDefaults in src/Functions/Projections/Mapping.py): the identity
    keyword of LinearMatrix. -/
def mappingDefaultMatrixSpec : MatrixSpec := .identityKeyword

/-- Auxiliary: the identity matrix has n columns. -/
lemma colsOf_identityMatrix (n : ℕ) : colsOf (identityMatrix n) = n := by
  cases n with
  | zero => rfl
  | succ k => simp [colsOf, identityMatrix, List.range_succ_eq_map]

/-- Auxiliary: the entry of the identity matrix at row i and column j. -/
lemma identityMatrix_getD (n i j : ℕ) (hi : i < n) (hj : j < n) :
    ((identityMatrix n).getD i []).getD j 0 = if i = j then (1 : ℚ) else 0 := by
  have hi' : i < (identityMatrix n).length := by simp [identityMatrix, hi]
  rw [getD_eq_getElem_of_lt _ _ _ hi']
  simp only [identityMatrix, List.getElem_map, List.getElem_range]
  rw [getD_eq_getElem_of_lt _ _ _ (by simp [hj])]
  simp

/-- Auxiliary: np.dot with the identity matrix returns the vector unchanged. -/
lemma linearMatrixExecute_identity (v : List ℚ) (n : ℕ) (h : v.length = n) :
    linearMatrixExecute v (identityMatrix n) = v := by
  unfold linearMatrixExecute
  rw [colsOf_identityMatrix]
  have key : ∀ j ∈ List.range n,
      (∑ i ∈ Finset.range v.length, v.getD i 0 * ((identityMatrix n).getD i []).getD j 0)
        = v.getD j 0 := by
    intro j hj
    have hjn : j < n := List.mem_range.mp hj
    rw [Finset.sum_congr rfl (fun i hi => by
      rw [identityMatrix_getD n i j (h ▸ Finset.mem_range.mp hi) hjn])]
    rw [Finset.sum_eq_single j (fun i _ hij => by simp [hij])
      (fun hb => absurd (Finset.mem_range.mpr (by rw [h]; exact hjn)) hb)]
    simp
  rw [List.map_congr_left key]
  exact list_eq_range_map_getD v n h

/-- C8: for every sender vector v of length n, the Mapping class default transform (the
    LinearMatrix identity keyword) implements the n x n identity matrix when the receiver
    vector also has length n, and executing the transform returns v unchanged: the identity
    transform is a round trip. -/
theorem mapping_identity_round_trip (v : List ℚ) (n : ℕ) (h : v.length = n) :
    implementMatrix n n mappingDefaultMatrixSpec = .ok (identityMatrix n) ∧
    linearMatrixExecute v (identityMatrix n) = v := by
  constructor
  · simp [implementMatrix, mappingDefaultMatrixSpec]
  · exact linearMatrixExecute_identity v n h

/-- Witness for C8 at the vector [3, 5, 7] of length 3. -/
theorem mapping_identity_round_trip_witness :
    ([(3 : ℚ), 5, 7].length = 3) ∧
    implementMatrix 3 3 mappingDefaultMatrixSpec = .ok (identityMatrix 3) ∧
    linearMatrixExecute [3, 5, 7] (identityMatrix 3) = [3, 5, 7] :=
  ⟨rfl, mapping_identity_round_trip [3, 5, 7] 3 rfl⟩

/-- C3 (code bug): assigning functionOutputType := RAW_NUMBER on a function whose variable
    has two elements and whose output conversion is enabled does NOT raise at assignment
    time: the setter as written succeeds and stores the mode, because its guard consults
    the current property value instead of the value being assigned. -/
theorem functionOutputTypeSet_raw_number_silently_accepted :
    functionOutputTypeSet ⟨true, 2, none⟩ (some .RAW_NUMBER)
      = .ok ⟨true, 2, some .RAW_NUMBER⟩ := by
  rfl

/-- Modelled from the spec: ProcessInputState and the Process attribute
    configurationMechanismNames live in Functions/Process.py, which is not under src/. Per
    the spec, a pass-through chain-input sender is the input buffer of a Process whose
    configuration is a linear chain of units wired in order, and at the moment the unit in
    position k of the chain (1-indexed) is wired, configurationMechanismNames holds the
    names of the first k units of the chain. -/
def configurationMechanismNamesAt (chain : List String) (k : ℕ) : List String :=
  chain.take k

/-- The ProcessInputState guard of Mapping.instantiate_sender
    (src/Functions/Projections/Mapping.py): when the sender is a ProcessInputState and the
    owner Process's configurationMechanismNames has more than one entry, a ProjectionError
    is raised; otherwise instantiation proceeds to the superclass method. -/
def mappingInstantiateSenderGuard (senderIsProcessInputState : Bool)
    (configurationMechanismNames : List String) : Except PyError Unit :=
  if senderIsProcessInputState ∧ configurationMechanismNames.length > 1 then
    .error (.projectionError "only allowed for first mechanism in configuration list")
  else .ok ()

/-- C2: a pass-through chain-input sender may feed only the first unit of the chain: the
    ProcessInputState guard of Mapping.instantiate_sender lets the wiring of the first unit
    proceed and raises ProjectionError for the wiring of any later unit. -/
theorem passthrough_sender_feeds_only_first_unit (chain : List String) (k : ℕ)
    (h1 : 1 ≤ k) (h2 : k ≤ chain.length) :
    (k = 1 →
      mappingInstantiateSenderGuard true (configurationMechanismNamesAt chain k) = .ok ()) ∧
    (1 < k →
      ∃ msg, mappingInstantiateSenderGuard true (configurationMechanismNamesAt chain k)
        = .error (.projectionError msg)) := by
  have hlen : (configurationMechanismNamesAt chain k).length = k := by
    simp only [configurationMechanismNamesAt, List.length_take]
    omega
  constructor
  · rintro rfl
    simp [mappingInstantiateSenderGuard, hlen]
  · intro hk
    refine ⟨"only allowed for first mechanism in configuration list", ?_⟩
    simp [mappingInstantiateSenderGuard, hlen, hk]

/-- Witness for C2 on the two-unit chain MechA, MechB: wiring the pass-through sender to
    the first unit succeeds, wiring it to the second raises ProjectionError. -/
theorem passthrough_sender_feeds_only_first_unit_witness :
    (1 ≤ 1 ∧ 1 ≤ (["MechA", "MechB"] : List String).length) ∧
    mappingInstantiateSenderGuard true (configurationMechanismNamesAt ["MechA", "MechB"] 1)
      = .ok () ∧
    (∃ msg, mappingInstantiateSenderGuard true
      (configurationMechanismNamesAt ["MechA", "MechB"] 2)
        = .error (.projectionError msg)) :=
  ⟨⟨le_refl 1, by decide⟩,
   (passthrough_sender_feeds_only_first_unit ["MechA", "MechB"] 1 (by decide)
     (by decide)).1 rfl,
   (passthrough_sender_feeds_only_first_unit ["MechA", "MechB"] 2 (by decide)
     (by decide)).2 (by decide)⟩

/-- State of a MechanismState endpoint as seen by projection wiring: its current value and
    its registration lists (sendsToProjections on the sending side,
    receivesFromProjections on the receiving side). Projections are identified by numeric
    ids. -/
structure MechanismState where
  value : List ℚ
  sendsToProjections : List ℕ
  receivesFromProjections : List ℕ
  deriving DecidableEq, Repr

/-- Sender and receiver endpoints visible to one Mapping construction. -/
structure WiringWorld where
  sender : MechanismState
  receiver : MechanismState
  deriving DecidableEq, Repr

/-- Projection_Base.instantiate_sender (src/Functions/Projections/Projection.py): the
    projection is appended to the sender's sendsToProjections list, and the projection's
    variable is aligned with the sender's value (the compatible branch assigns
    sender.value, the incompatible branch reassigns the variable to sender.value through
    assign_defaults; both leave the variable equal to sender.value). -/
def instantiateSender (pid : ℕ) (w : WiringWorld) : WiringWorld × List ℚ :=
  ({ w with sender :=
      { w.sender with sendsToProjections := w.sender.sendsToProjections ++ [pid] } },
   w.sender.value)

/-- Projection_Base.instantiate_receiver (src/Functions/Projections/Projection.py): the
    projection is appended to the receiver's receivesFromProjections list. -/
def instantiateReceiver (pid : ℕ) (w : WiringWorld) : WiringWorld :=
  { w with receiver :=
      { w.receiver with
          receivesFromProjections := w.receiver.receivesFromProjections ++ [pid] } }

/-- The execute-method stage of a default Mapping construction: with the class-default
    identity transform the projection's output value equals its variable, and
    Mapping.instantiate_execute_method raises ProjectionError whenever the length of the
    receiver's value differs from the length of that output (for vector values the
    superclass compatibility check of Projection_Base.instantiate_execute_method fails on
    the same length mismatch, and the scalar coercion attempts do not apply). -/
def instantiateExecuteMethodMapping (var : List ℚ) (receiverValue : List ℚ) :
    Except PyError (List ℚ) :=
  if receiverValue.length = var.length then .ok var
  else .error (.projectionError "length of output must equal length of receiver value")

/-- Construction of a default Mapping projection, in the stage order documented in
    Projection.py and enforced by the Function init chain: instantiate_sender, then
    instantiate_receiver, then instantiate_execute_method. The registration appends of the
    first two stages mutate the sender and receiver state objects in place; when the third
    stage raises, the exception propagates out of the construction call and no code removes
    the appended entries. -/
def constructMapping (pid : ℕ) (w : WiringWorld) : Except PyError (List ℚ) × WiringWorld :=
  let sw := instantiateSender pid w
  let w2 := instantiateReceiver pid sw.1
  (instantiateExecuteMethodMapping sw.2 w2.receiver.value, w2)

/-- Counterexample to C1: a Mapping construction from a length-2 sender to a length-3
    receiver fails at the execute-method stage with ProjectionError, yet afterwards the
    sender's sendsToProjections and the receiver's receivesFromProjections both contain the
    projection, having been empty before the construction call. -/
theorem failed_construction_registration_counterexample :
    (constructMapping 7 ⟨⟨[0, 0], [], []⟩, ⟨[0, 0, 0], [], []⟩⟩).1
      = .error (.projectionError "length of output must equal length of receiver value") ∧
    (constructMapping 7 ⟨⟨[0, 0], [], []⟩, ⟨[0, 0, 0], [], []⟩⟩).2.sender.sendsToProjections
      = [7] ∧
    (constructMapping 7
      ⟨⟨[0, 0], [], []⟩, ⟨[0, 0, 0], [], []⟩⟩).2.receiver.receivesFromProjections
      = [7] := by
  exact ⟨rfl, rfl, rfl⟩

/-- C1 as amended: when a Mapping construction fails at the execute-method stage of the
    wiring protocol, the sender's sendsToProjections and the receiver's
    receivesFromProjections are NOT restored: each ends as its prior contents with the
    failed projection appended (the registration side effects of the sender and receiver
    stages are neither rolled back nor deferred). -/
theorem failed_construction_leaves_partial_registration (pid : ℕ) (w : WiringWorld)
    (e : PyError) (_h : (constructMapping pid w).1 = .error e) :
    (constructMapping pid w).2.sender.sendsToProjections
      = w.sender.sendsToProjections ++ [pid] ∧
    (constructMapping pid w).2.receiver.receivesFromProjections
      = w.receiver.receivesFromProjections ++ [pid] := by
  exact ⟨rfl, rfl⟩

/-- Witness for the amended C1 at the counterexample input. -/
theorem failed_construction_leaves_partial_registration_witness :
    (constructMapping 7 ⟨⟨[0, 0], [], []⟩, ⟨[0, 0, 0], [], []⟩⟩).1
      = .error (.projectionError "length of output must equal length of receiver value") ∧
    (constructMapping 7 ⟨⟨[0, 0], [], []⟩, ⟨[0, 0, 0], [], []⟩⟩).2.sender.sendsToProjections
      = [] ++ [7] ∧
    (constructMapping 7
      ⟨⟨[0, 0], [], []⟩, ⟨[0, 0, 0], [], []⟩⟩).2.receiver.receivesFromProjections
      = [] ++ [7] :=
  ⟨rfl,
   failed_construction_leaves_partial_registration 7
     ⟨⟨[0, 0], [], []⟩, ⟨[0, 0, 0], [], []⟩⟩
     (.projectionError "length of output must equal length of receiver value") rfl⟩

end PsyNeuLink
